import Mathlib

/-!
Verification of the simulated operand-stack subsystem
(`src/compiler/ilgen/VirtualMachineOperandStack.hpp`).

The repository slice contains only the class header: the declarations of
`Push`, `Pop`, `Top`, `Pick`, `Drop`, `Dup`, `Commit`, `MakeCopy`,
`MergeInto`, `grow`, `checkSize`, the private fields
(`_stackMax`, `_stackTop`, `_stack`, `_elementType`, `_pushAmount`,
`_stackOffset`), and the two inline virtual bodies `growsUp()` and
`stackPtrStartingOffset()`.  The member-function bodies live in a
translation unit that is not part of the slice, so every operation body
below is modelled from the specification's description of that operation;
the two inline bodies are translated directly from the header.

Modelling conventions:
  * `TR::IlValue *` handles are opaque; they are modelled as natural
    numbers (`IlValue`).  Unoccupied backing slots hold the default `0`
    (the C++ array holds garbage there; the spec declares slots at or
    above the logical top "unused").
  * The spec's "logical top" is the number of live elements (depth);
    `Pick(d)` reads index `top - 1 - d`, `Push` writes index `top`.
  * IR emission into a builder is modelled by a `BuilderState` carrying
    the tracked value of the stack-top register and the ordered list of
    emitted operations; emitting appends to the list.
  * Fatal assertion failures (pop of an empty stack, merge of stacks of
    different depth, out-of-range pick/drop) are modelled by `Option`:
    `none` is the fatal outcome.
  * C++ object mutation becomes explicit state passing; value semantics
    of the embedding represent the fact that a copied stack shares no
    backing storage with its original.
-/

namespace OMR

/-- An opaque IR value handle (`TR::IlValue *`), identified by a number. -/
abbrev IlValue := Nat

/-- One IR operation emitted into a builder by the operand stack:
a write of the virtual machine's stack-top register, a store of a value
to a real-VM operand-stack address (emitted by `Commit`), or a store of
a value over another value's storage location (emitted by `MergeInto`). -/
inductive IROp where
  | writeStackTopReg : Int → IROp
  | storeToVMStack : Int → IlValue → IROp
  | storeOver : IlValue → IlValue → IROp
deriving DecidableEq, Repr

/-- Modelled from the spec: the builder (`TR::IlBuilder`) as seen by the
operand stack: the current tracked value of the stack-top register and
the list of IR operations emitted so far, in emission order. -/
structure BuilderState where
  stackTopReg : Int
  ops : List IROp
deriving DecidableEq, Repr

/-- The simulated operand stack, with the fields of the C++ class:
`_stackMax` (allocated capacity), `_stackTop` (logical top, as the spec's
element count), `_stack` (backing sequence, length `_stackMax`),
`_elementType` (opaque element-type identifier), `_pushAmount` and
`_stackOffset` (growth-direction and starting-offset configuration). -/
structure VirtualMachineOperandStack where
  stackMax : Nat
  stackTop : Nat
  stack : List IlValue
  elementType : Nat
  pushAmount : Int
  stackOffset : Int
deriving DecidableEq, Repr

/-- Translated from the header's inline body: the base class reports a
stack growing towards larger addresses (`return true`). -/
def growsUp (_s : VirtualMachineOperandStack) : Bool := true

/-- Translated from the header's inline body: the base class reports a
stack pointer initially one element below the bottom of the stack
(`return -1`). -/
def stackPtrStartingOffset (_s : VirtualMachineOperandStack) : Int := -1

/-- Well-formedness invariant of an operand stack: the backing sequence
has exactly the allocated capacity, the logical top never exceeds the
capacity, and the capacity is at least one element. -/
def wf (s : VirtualMachineOperandStack) : Prop :=
  s.stack.length = s.stackMax ∧ s.stackTop ≤ s.stackMax ∧ 0 < s.stackMax

instance (s : VirtualMachineOperandStack) : Decidable (wf s) := by
  unfold wf; infer_instance

/-- The value held in backing slot `i` (default `0` when unoccupied). -/
def slotAt (s : VirtualMachineOperandStack) (i : Nat) : IlValue :=
  s.stack.getD i 0

/-- Modelled from the spec: the public constructor allocates a backing
sequence of capacity `sizeHint` (minimum 1) with logical top 0, and
derives the push direction and starting offset from the configuration
hooks `growsUp` and `stackPtrStartingOffset`. -/
def mkOperandStack (sizeHint : Nat) (elemType : Nat) : VirtualMachineOperandStack :=
  let cap := max sizeHint 1
  let s0 : VirtualMachineOperandStack :=
    { stackMax := cap, stackTop := 0, stack := List.replicate cap 0,
      elementType := elemType, pushAmount := 1, stackOffset := -1 }
  { s0 with pushAmount := if growsUp s0 then 1 else -1,
            stackOffset := stackPtrStartingOffset s0 }

/-- Modelled from the spec: when capacity is exhausted, allocate a new
backing sequence of at least double the old capacity (or old capacity
plus the requested growth amount, whichever is larger), copy all live
elements by reference, and discard the old sequence; the logical top is
unchanged. -/
def grow (s : VirtualMachineOperandStack) (growAmount : Nat) : VirtualMachineOperandStack :=
  let newMax := max (2 * s.stackMax) (s.stackMax + growAmount)
  { s with stackMax := newMax,
           stack := s.stack.take s.stackTop ++ List.replicate (newMax - s.stackTop) 0 }

/-- Modelled from the spec: before an insertion, grow the backing
sequence exactly when the logical top has reached the capacity. -/
def checkSize (s : VirtualMachineOperandStack) : VirtualMachineOperandStack :=
  if s.stackTop = s.stackMax then grow s 0 else s

/-- Modelled from the spec: a single aggregate update of the stack-top
register for a change of `depthDelta` elements of depth, honouring the
configured growth direction; exactly one register write is emitted. -/
def adjustReg (s : VirtualMachineOperandStack) (b : BuilderState) (depthDelta : Int) :
    BuilderState :=
  let newReg := b.stackTopReg + s.pushAmount * depthDelta
  { stackTopReg := newReg, ops := b.ops ++ [IROp.writeStackTopReg newReg] }

/-- Modelled from the spec: `Push` grows the backing sequence if the
logical top equals the capacity, stores the value at index = old top,
increments the top, and updates the stack-top register to reflect the
new depth. -/
def Push (s : VirtualMachineOperandStack) (b : BuilderState) (value : IlValue) :
    VirtualMachineOperandStack × BuilderState :=
  let sg := checkSize s
  ({ sg with stack := sg.stack.set sg.stackTop value, stackTop := sg.stackTop + 1 },
   adjustReg sg b 1)

/-- Modelled from the spec: `Pop` is a fatal assertion failure (`none`)
exactly when the logical top is 0; otherwise it decrements the top,
returns the value previously at the new top index, and updates the
stack-top register. -/
def Pop (s : VirtualMachineOperandStack) (b : BuilderState) :
    Option (IlValue × VirtualMachineOperandStack × BuilderState) :=
  if s.stackTop = 0 then none
  else
    some (slotAt s (s.stackTop - 1), { s with stackTop := s.stackTop - 1 },
          adjustReg s b (-1))

/-- Modelled from the spec: `Pick depth` returns the value at index
`top - 1 - depth` without mutating the stack; the precondition
`depth < top` is a fatal condition when violated (`none`). -/
def Pick (s : VirtualMachineOperandStack) (depth : Nat) : Option IlValue :=
  if depth < s.stackTop then some (slotAt s (s.stackTop - 1 - depth)) else none

/-- Modelled from the spec: `Top` is equivalent to `Pick 0`. -/
def Top (s : VirtualMachineOperandStack) : Option IlValue :=
  Pick s 0

/-- Modelled from the spec: `Drop depth` decrements the logical top by
`depth` (precondition `depth ≤ top`, fatal when violated) and updates
the stack-top register once for the aggregate change. -/
def Drop (s : VirtualMachineOperandStack) (b : BuilderState) (depth : Nat) :
    Option (VirtualMachineOperandStack × BuilderState) :=
  if depth ≤ s.stackTop then
    some ({ s with stackTop := s.stackTop - depth }, adjustReg s b (-(depth : Int)))
  else none

/-- Modelled from the spec: `Dup` is `Push (Top())`; on an empty stack
`Top`'s precondition is violated, which is fatal. -/
def Dup (s : VirtualMachineOperandStack) (b : BuilderState) :
    Option (VirtualMachineOperandStack × BuilderState) :=
  match Top s with
  | some v => some (Push s b v)
  | none => none

/-- Modelled from the spec: `MakeCopy` allocates a fresh backing
sequence of the same capacity and copies the capacity, logical top,
element type, configuration, and each element's value handle by
reference; the copy shares no backing storage with the original. -/
def MakeCopy (s : VirtualMachineOperandStack) : VirtualMachineOperandStack :=
  { stackMax := s.stackMax, stackTop := s.stackTop,
    stack := (List.range s.stackMax).map (fun i => slotAt s i),
    elementType := s.elementType, pushAmount := s.pushAmount,
    stackOffset := s.stackOffset }

/-- Modelled from the spec: the real-VM operand-stack address of slot
`i`, computed from the stack-top register's current value `reg`, the
growth direction `growsUp`, and `stackPtrStartingOffset` (held in the
`stackOffset` field), for a stack of the given logical depth. -/
def commitAddress (s : VirtualMachineOperandStack) (reg : Int) (i : Nat) : Int :=
  if growsUp s then reg - (s.stackTop : Int) - s.stackOffset + (i : Int)
  else reg + (s.stackTop : Int) + s.stackOffset - (i : Int)

/-- The stores emitted by `Commit` for a stack and a current register
value: one per live slot, in ascending index order from the bottom. -/
def commitStores (s : VirtualMachineOperandStack) (reg : Int) : List IROp :=
  (List.range s.stackTop).map
    (fun i => IROp.storeToVMStack (commitAddress s reg i) (slotAt s i))

/-- Modelled from the spec: `Commit` iterates indices `0 .. top - 1` in
ascending order and emits, for each live slot, one store of that slot's
value to its real-VM stack address; the simulated stack itself is
unchanged, so it is returned as is. -/
def Commit (s : VirtualMachineOperandStack) (b : BuilderState) :
    VirtualMachineOperandStack × BuilderState :=
  (s, { b with ops := b.ops ++ commitStores s b.stackTopReg })

/-- The reconciliation stores emitted at a merge point: one per shared
index, in ascending index order, each storing this stack's value over
the other stack's storage location for that index (identified by the
value handle occupying it). -/
def mergeStores (s other : VirtualMachineOperandStack) : List IROp :=
  (List.range s.stackTop).map
    (fun i => IROp.storeOver (slotAt other i) (slotAt s i))

/-- Modelled from the spec: `MergeInto` requires both stacks to have the
same logical top (differing depths are a fatal condition, `none`) and
emits, for every index below the top, the reconciliation store of this
stack's value into the other stack's storage location. -/
def MergeInto (s other : VirtualMachineOperandStack) (b : BuilderState) :
    Option BuilderState :=
  if s.stackTop = other.stackTop then
    some { b with ops := b.ops ++ mergeStores s other }
  else none

/-- Push a whole sequence of values in order (left to right). -/
def pushAll (s : VirtualMachineOperandStack) (b : BuilderState) (vs : List IlValue) :
    VirtualMachineOperandStack × BuilderState :=
  vs.foldl (fun sb v => Push sb.1 sb.2 v) (s, b)

/-- Perform `n` successive pops, collecting the popped values in order;
fatal (`none`) as soon as one pop is fatal. -/
def popN (s : VirtualMachineOperandStack) (b : BuilderState) :
    Nat → Option (List IlValue × VirtualMachineOperandStack × BuilderState)
  | 0 => some ([], s, b)
  | n + 1 =>
    match Pop s b with
    | some (v, s', b') =>
      match popN s' b' n with
      | some (vs, s'', b'') => some (v :: vs, s'', b'')
      | none => none
    | none => none

/-- The builder state at the start of a compilation region used by the
concrete examples: register value 0, no operations emitted yet. -/
def emptyBuilder : BuilderState :=
  { stackTopReg := 0, ops := [] }

/-- Concrete scenario stack: sizeHint 4, values 5, 7, 3 pushed in order. -/
def exS : VirtualMachineOperandStack :=
  (pushAll (mkOperandStack 4 0) emptyBuilder [5, 7, 3]).1

/-- Builder reached by the concrete scenario pushes. -/
def exB : BuilderState :=
  (pushAll (mkOperandStack 4 0) emptyBuilder [5, 7, 3]).2

/-- A second concrete stack of the same depth with values 8, 9, 10, used
as the resident stack of a merge point. -/
def exOther : VirtualMachineOperandStack :=
  (pushAll (mkOperandStack 4 0) emptyBuilder [8, 9, 10]).1

/-! ### Generic facts about `List.getD`, `List.set`, `List.take` -/

theorem getD_set_self {l : List IlValue} {i : Nat} (h : i < l.length) (a d : IlValue) :
    (l.set i a).getD i d = a := by
  rw [List.getD_eq_getElem _ _ (by simpa using h)]
  simp [List.getElem_set]

theorem getD_set_ne {l : List IlValue} {i j : Nat} (hne : i ≠ j) (a d : IlValue) :
    (l.set i a).getD j d = l.getD j d := by
  by_cases hj : j < l.length
  · rw [List.getD_eq_getElem _ _ (by simpa using hj), List.getD_eq_getElem _ _ hj]
    rw [List.getElem_set]
    simp [hne]
  · rw [List.getD_eq_default _ _ (by simpa using Nat.le_of_not_lt hj),
        List.getD_eq_default _ _ (Nat.le_of_not_lt hj)]

theorem getD_take_of_lt {l : List IlValue} {k i : Nat} (h : i < k) (h2 : i < l.length)
    (d : IlValue) : (l.take k).getD i d = l.getD i d := by
  rw [List.getD_eq_getElem _ _ (by simp [h, h2]), List.getD_eq_getElem _ _ h2]
  simp [List.getElem_take]

/-! ### Facts about `grow` -/

theorem grow_stackTop (s : VirtualMachineOperandStack) (g : Nat) :
    (grow s g).stackTop = s.stackTop := rfl

theorem grow_stackMax (s : VirtualMachineOperandStack) (g : Nat) :
    (grow s g).stackMax = max (2 * s.stackMax) (s.stackMax + g) := rfl

theorem grow_pushAmount (s : VirtualMachineOperandStack) (g : Nat) :
    (grow s g).pushAmount = s.pushAmount := rfl

theorem grow_elementType (s : VirtualMachineOperandStack) (g : Nat) :
    (grow s g).elementType = s.elementType := rfl

theorem stackMax_le_grow (s : VirtualMachineOperandStack) (g : Nat) :
    s.stackMax ≤ (grow s g).stackMax :=
  Nat.le_trans (Nat.le_add_right s.stackMax g) (Nat.le_max_right _ _)

theorem stackMax_le_grow_double (s : VirtualMachineOperandStack) (g : Nat) :
    2 * s.stackMax ≤ (grow s g).stackMax :=
  Nat.le_max_left _ _

theorem grow_length (s : VirtualMachineOperandStack) (g : Nat) (h : wf s) :
    (grow s g).stack.length = (grow s g).stackMax := by
  obtain ⟨hlen, htop, hpos⟩ := h
  have htoplen : s.stackTop ≤ s.stack.length := hlen ▸ htop
  have htopnew : s.stackTop ≤ (grow s g).stackMax :=
    Nat.le_trans (Nat.le_trans htop (Nat.le_mul_of_pos_left _ (by omega)))
      (stackMax_le_grow_double s g)
  simp only [grow, List.length_append, List.length_take, List.length_replicate]
  omega

theorem slotAt_grow (s : VirtualMachineOperandStack) (g : Nat) (h : wf s) {i : Nat}
    (hi : i < s.stackTop) : slotAt (grow s g) i = slotAt s i := by
  obtain ⟨hlen, htop, hpos⟩ := h
  have hil : i < s.stack.length := by omega
  show ((s.stack.take s.stackTop) ++ List.replicate _ 0).getD i 0 = s.stack.getD i 0
  rw [List.getD_append _ _ _ _ (by simp [List.length_take]; omega)]
  exact getD_take_of_lt hi hil 0

theorem wf_grow (s : VirtualMachineOperandStack) (g : Nat) (h : wf s) : wf (grow s g) := by
  refine ⟨grow_length s g h, ?_, ?_⟩
  · rw [grow_stackTop]
    exact Nat.le_trans h.2.1 (stackMax_le_grow s g)
  · exact Nat.lt_of_lt_of_le h.2.2 (stackMax_le_grow s g)

/-! ### Facts about `checkSize` -/

theorem checkSize_stackTop (s : VirtualMachineOperandStack) :
    (checkSize s).stackTop = s.stackTop := by
  unfold checkSize; split <;> rfl

theorem checkSize_pushAmount (s : VirtualMachineOperandStack) :
    (checkSize s).pushAmount = s.pushAmount := by
  unfold checkSize; split <;> rfl

theorem checkSize_elementType (s : VirtualMachineOperandStack) :
    (checkSize s).elementType = s.elementType := by
  unfold checkSize; split <;> rfl

theorem stackMax_le_checkSize (s : VirtualMachineOperandStack) :
    s.stackMax ≤ (checkSize s).stackMax := by
  unfold checkSize; split
  · exact stackMax_le_grow s 0
  · exact Nat.le_refl _

theorem slotAt_checkSize (s : VirtualMachineOperandStack) (h : wf s) {i : Nat}
    (hi : i < s.stackTop) : slotAt (checkSize s) i = slotAt s i := by
  unfold checkSize; split
  · exact slotAt_grow s 0 h hi
  · rfl

theorem wf_checkSize (s : VirtualMachineOperandStack) (h : wf s) : wf (checkSize s) := by
  unfold checkSize; split
  · exact wf_grow s 0 h
  · exact h

theorem checkSize_top_lt (s : VirtualMachineOperandStack) (h : wf s) :
    (checkSize s).stackTop < (checkSize s).stackMax := by
  obtain ⟨hlen, htop, hpos⟩ := h
  unfold checkSize; split
  · rename_i heq
    rw [grow_stackTop, grow_stackMax]
    have : s.stackTop < 2 * s.stackMax := by omega
    exact Nat.lt_of_lt_of_le this (Nat.le_max_left _ _)
  · rename_i hne
    omega

/-! ### Facts about `Push` -/

theorem Push_stackTop (s : VirtualMachineOperandStack) (b : BuilderState) (v : IlValue) :
    (Push s b v).1.stackTop = s.stackTop + 1 := by
  show (checkSize s).stackTop + 1 = s.stackTop + 1
  rw [checkSize_stackTop]

theorem Push_stackMax (s : VirtualMachineOperandStack) (b : BuilderState) (v : IlValue) :
    (Push s b v).1.stackMax = (checkSize s).stackMax := rfl

theorem Push_pushAmount (s : VirtualMachineOperandStack) (b : BuilderState) (v : IlValue) :
    (Push s b v).1.pushAmount = s.pushAmount := by
  show (checkSize s).pushAmount = s.pushAmount
  exact checkSize_pushAmount s

theorem Push_elementType (s : VirtualMachineOperandStack) (b : BuilderState) (v : IlValue) :
    (Push s b v).1.elementType = s.elementType := by
  show (checkSize s).elementType = s.elementType
  exact checkSize_elementType s

theorem stackMax_le_Push (s : VirtualMachineOperandStack) (b : BuilderState) (v : IlValue) :
    s.stackMax ≤ (Push s b v).1.stackMax :=
  stackMax_le_checkSize s

theorem slotAt_Push_lt (s : VirtualMachineOperandStack) (b : BuilderState) (v : IlValue)
    (h : wf s) {i : Nat} (hi : i < s.stackTop) : slotAt (Push s b v).1 i = slotAt s i := by
  show ((checkSize s).stack.set (checkSize s).stackTop v).getD i 0 = slotAt s i
  rw [getD_set_ne (by rw [checkSize_stackTop]; omega) v 0]
  exact slotAt_checkSize s h hi

theorem slotAt_Push_top (s : VirtualMachineOperandStack) (b : BuilderState) (v : IlValue)
    (h : wf s) : slotAt (Push s b v).1 s.stackTop = v := by
  show ((checkSize s).stack.set (checkSize s).stackTop v).getD s.stackTop 0 = v
  have h1 : (checkSize s).stackTop = s.stackTop := checkSize_stackTop s
  have h2 : (checkSize s).stackTop < (checkSize s).stack.length := by
    rw [(wf_checkSize s h).1]
    exact checkSize_top_lt s h
  rw [← h1]
  exact getD_set_self h2 v 0

theorem wf_Push (s : VirtualMachineOperandStack) (b : BuilderState) (v : IlValue)
    (h : wf s) : wf (Push s b v).1 := by
  have hcs := wf_checkSize s h
  have hlt := checkSize_top_lt s h
  refine ⟨?_, ?_, ?_⟩
  · show ((checkSize s).stack.set _ v).length = (checkSize s).stackMax
    rw [List.length_set]
    exact hcs.1
  · show (checkSize s).stackTop + 1 ≤ (checkSize s).stackMax
    omega
  · exact Nat.lt_of_lt_of_le hcs.2.2 (Nat.le_refl _)

/-! ### Facts about `pushAll` -/

theorem pushAll_nil (s : VirtualMachineOperandStack) (b : BuilderState) :
    pushAll s b [] = (s, b) := rfl

theorem pushAll_cons (s : VirtualMachineOperandStack) (b : BuilderState) (v : IlValue)
    (vs : List IlValue) :
    pushAll s b (v :: vs) = pushAll (Push s b v).1 (Push s b v).2 vs := rfl

theorem pushAll_spec (vs : List IlValue) :
    ∀ (s : VirtualMachineOperandStack) (b : BuilderState), wf s →
      wf (pushAll s b vs).1
      ∧ (pushAll s b vs).1.stackTop = s.stackTop + vs.length
      ∧ (∀ i, i < s.stackTop → slotAt (pushAll s b vs).1 i = slotAt s i)
      ∧ (∀ j, j < vs.length → slotAt (pushAll s b vs).1 (s.stackTop + j) = vs.getD j 0)
      ∧ s.stackMax ≤ (pushAll s b vs).1.stackMax := by
  induction vs with
  | nil =>
    intro s b h
    refine ⟨h, by simp [pushAll_nil], fun i _ => rfl, fun j hj => absurd hj (by simp), ?_⟩
    simp [pushAll_nil]
  | cons v vs ih =>
    intro s b h
    rw [pushAll_cons]
    have h1 := wf_Push s b v h
    obtain ⟨ihwf, ihtop, ihpres, ihnew, ihmax⟩ := ih (Push s b v).1 (Push s b v).2 h1
    have htop1 : (Push s b v).1.stackTop = s.stackTop + 1 := Push_stackTop s b v
    refine ⟨ihwf, ?_, ?_, ?_, ?_⟩
    · rw [ihtop, htop1]
      simp [Nat.add_assoc, Nat.add_comm 1 vs.length]
    · intro i hi
      rw [ihpres i (by omega), slotAt_Push_lt s b v h hi]
    · intro j hj
      match j with
      | 0 =>
        have := ihpres s.stackTop (by omega)
        rw [Nat.add_zero, this, slotAt_Push_top s b v h]
        rfl
      | j' + 1 =>
        have : s.stackTop + (j' + 1) = (Push s b v).1.stackTop + j' := by omega
        rw [this, ihnew j' (by simpa using hj)]
        rfl
    · exact Nat.le_trans (stackMax_le_Push s b v) ihmax

/-! ### Facts about `Pop` and `popN` -/

theorem Pop_eq_none_iff (s : VirtualMachineOperandStack) (b : BuilderState) :
    Pop s b = none ↔ s.stackTop = 0 := by
  unfold Pop; split
  · simpa
  · simp; omega

theorem Pop_of_pos (s : VirtualMachineOperandStack) (b : BuilderState)
    (h : 0 < s.stackTop) :
    Pop s b = some (slotAt s (s.stackTop - 1), { s with stackTop := s.stackTop - 1 },
      adjustReg s b (-1)) := by
  unfold Pop
  rw [if_neg (by omega)]

theorem popN_zero (s : VirtualMachineOperandStack) (b : BuilderState) :
    popN s b 0 = some ([], s, b) := rfl

theorem popN_one (s : VirtualMachineOperandStack) (b : BuilderState) (h : 0 < s.stackTop) :
    popN s b 1 = some ([slotAt s (s.stackTop - 1)], { s with stackTop := s.stackTop - 1 },
      adjustReg s b (-1)) := by
  show (match Pop s b with
    | some (v, s', b') =>
      match popN s' b' 0 with
      | some (vs, s'', b'') => some (v :: vs, s'', b'')
      | none => none
    | none => none) = _
  rw [Pop_of_pos s b h]
  rfl

theorem popN_add (n m : Nat) :
    ∀ (s : VirtualMachineOperandStack) (b : BuilderState),
      popN s b (n + m)
        = (popN s b n).bind
            (fun r => (popN r.2.1 r.2.2 m).map (fun q => (r.1 ++ q.1, q.2))) := by
  induction n with
  | zero =>
    intro s b
    rw [Nat.zero_add, popN_zero]
    cases hm : popN s b m with
    | none => simp [hm]
    | some q => simp [hm]
  | succ n ih =>
    intro s b
    have hadd : n + 1 + m = (n + m) + 1 := by omega
    rw [hadd]
    show (match Pop s b with
      | some (v, s', b') =>
        match popN s' b' (n + m) with
        | some (vs, s'', b'') => some (v :: vs, s'', b'')
        | none => none
      | none => none) = _
    cases hp : Pop s b with
    | none =>
      show none = (popN s b (n + 1)).bind _
      have : popN s b (n + 1) = none := by
        show (match Pop s b with
          | some (v, s', b') =>
            match popN s' b' n with
            | some (vs, s'', b'') => some (v :: vs, s'', b'')
            | none => none
          | none => none) = none
        rw [hp]
      rw [this]; rfl
    | some r =>
      obtain ⟨v, s', b'⟩ := r
      show (match popN s' b' (n + m) with
        | some (vs, s'', b'') => some (v :: vs, s'', b'')
        | none => none) = _
      rw [ih s' b']
      have hsucc : popN s b (n + 1)
          = (match popN s' b' n with
             | some (vs, s'', b'') => some (v :: vs, s'', b'')
             | none => none) := by
        show (match Pop s b with
          | some (v, s', b') =>
            match popN s' b' n with
            | some (vs, s'', b'') => some (v :: vs, s'', b'')
            | none => none
          | none => none) = _
        rw [hp]
      rw [hsucc]
      cases hn : popN s' b' n with
      | none => rfl
      | some r1 =>
        obtain ⟨xs, s1, b1⟩ := r1
        simp only [Option.some_bind]
        cases hm : popN s1 b1 m with
        | none => simp
        | some q => simp

theorem popN_pushAll (vs : List IlValue) :
    ∀ (s : VirtualMachineOperandStack) (b : BuilderState), wf s →
      ∃ s' b', popN (pushAll s b vs).1 (pushAll s b vs).2 vs.length
          = some (vs.reverse, s', b')
        ∧ s'.stackTop = s.stackTop ∧ wf s'
        ∧ (∀ i, i < s.stackTop → slotAt s' i = slotAt s i) := by
  induction vs with
  | nil =>
    intro s b h
    exact ⟨s, b, by rw [pushAll_nil, List.length_nil, popN_zero, List.reverse_nil],
      rfl, h, fun i _ => rfl⟩
  | cons v vs ih =>
    intro s b h
    rw [pushAll_cons]
    have h1 := wf_Push s b v h
    obtain ⟨s', b', hrun, htop', hwf', hpres'⟩ := ih (Push s b v).1 (Push s b v).2 h1
    have htop1 : (Push s b v).1.stackTop = s.stackTop + 1 := Push_stackTop s b v
    have hlen : (v :: vs).length = vs.length + 1 := rfl
    rw [hlen, popN_add vs.length 1, hrun]
    have hpos : 0 < s'.stackTop := by omega
    simp only [Option.some_bind]
    rw [popN_one s' b' hpos]
    have hslot : slotAt s' (s'.stackTop - 1) = v := by
      have : s'.stackTop - 1 = s.stackTop := by omega
      rw [this, hpres' s.stackTop (by omega), slotAt_Push_top s b v h]
    refine ⟨{ s' with stackTop := s'.stackTop - 1 }, adjustReg s' b' (-1), ?_, ?_, ?_, ?_⟩
    · simp only [Option.map_some']
      rw [hslot, List.reverse_cons]
    · simp; omega
    · refine ⟨hwf'.1, ?_, hwf'.2.2⟩
      have hle := hwf'.2.1
      simp
      omega
    · intro i hi
      show slotAt s' i = slotAt s i
      rw [hpres' i (by omega), slotAt_Push_lt s b v h hi]

/-! ### Facts about emitted operation lists, `Drop`, `Dup`, `MakeCopy` -/

theorem getD_append_map_range {pre : List IROp} {n : Nat} (f : Nat → IROp) {i : Nat}
    (hi : i < n) (d : IROp) :
    (pre ++ (List.range n).map f).getD (pre.length + i) d = f i := by
  rw [List.getD_append_right _ _ _ _ (Nat.le_add_right _ _)]
  have hsub : pre.length + i - pre.length = i := by omega
  rw [hsub, List.getD_eq_getElem _ _ (by simpa using hi)]
  simp

theorem Drop_of_le (s : VirtualMachineOperandStack) (b : BuilderState) (d : Nat)
    (h : d ≤ s.stackTop) :
    Drop s b d = some ({ s with stackTop := s.stackTop - d }, adjustReg s b (-(d : Int))) := by
  unfold Drop
  rw [if_pos h]

theorem Drop_some_inv (s : VirtualMachineOperandStack) (b : BuilderState) (d : Nat)
    (r : VirtualMachineOperandStack × BuilderState) (h : Drop s b d = some r) :
    d ≤ s.stackTop ∧ r.1 = { s with stackTop := s.stackTop - d } := by
  by_cases hd : d ≤ s.stackTop
  · rw [Drop_of_le s b d hd] at h
    exact ⟨hd, by injection h with h1; rw [← h1]⟩
  · unfold Drop at h
    rw [if_neg hd] at h
    exact absurd h (by simp)

theorem Pop_some_inv (s : VirtualMachineOperandStack) (b : BuilderState)
    (r : IlValue × VirtualMachineOperandStack × BuilderState) (h : Pop s b = some r) :
    0 < s.stackTop ∧ r.2.1 = { s with stackTop := s.stackTop - 1 } := by
  by_cases h0 : s.stackTop = 0
  · rw [(Pop_eq_none_iff s b).mpr h0] at h
    exact absurd h (by simp)
  · have hpos : 0 < s.stackTop := by omega
    rw [Pop_of_pos s b hpos] at h
    exact ⟨hpos, by injection h with h1; rw [← h1]⟩

theorem Dup_some_inv (s : VirtualMachineOperandStack) (b : BuilderState)
    (r : VirtualMachineOperandStack × BuilderState) (h : Dup s b = some r) :
    ∃ v, r = Push s b v := by
  unfold Dup at h
  cases hT : Top s with
  | none => rw [hT] at h; exact absurd h (by simp)
  | some v =>
    rw [hT] at h
    exact ⟨v, by injection h with h1; rw [← h1]⟩

theorem MakeCopy_eq (s : VirtualMachineOperandStack) (h : wf s) : MakeCopy s = s := by
  obtain ⟨hlen, htop, hpos⟩ := h
  show VirtualMachineOperandStack.mk _ _ _ _ _ _ = s
  have hstack : (List.range s.stackMax).map (fun i => slotAt s i) = s.stack := by
    apply List.ext_getElem
    · simp [hlen]
    · intro i h1 h2
      simp only [List.getElem_map, List.getElem_range]
      exact List.getD_eq_getElem s.stack 0 h2
  rw [hstack]

theorem wf_MakeCopy (s : VirtualMachineOperandStack) (h : wf s) : wf (MakeCopy s) := by
  rw [MakeCopy_eq s h]; exact h

/-! ### Claim theorems -/

/-- Claim C1: for every sequence of values v1..vn pushed in order onto a
well-formed operand stack, performing n successive pops succeeds and
returns the values in reverse order vn..v1, restoring the original
logical top; and each single pop decrements the logical top and returns
the value previously at the new top index, updating the stack-top
register. -/
theorem claim_C1 (s : VirtualMachineOperandStack) (b : BuilderState)
    (vs : List IlValue) (h : wf s) :
    ((popN (pushAll s b vs).1 (pushAll s b vs).2 vs.length).map
        (fun r => (r.1, r.2.1.stackTop)) = some (vs.reverse, s.stackTop))
    ∧ (∀ (t : VirtualMachineOperandStack) (b2 : BuilderState), 0 < t.stackTop →
        Pop t b2 = some (slotAt t (t.stackTop - 1),
          { t with stackTop := t.stackTop - 1 }, adjustReg t b2 (-1))) := by
  refine ⟨?_, fun t b2 ht => Pop_of_pos t b2 ht⟩
  obtain ⟨s', b', hrun, htop, _, _⟩ := popN_pushAll vs s b h
  rw [hrun, Option.map_some']
  rw [htop]

/-- Witness for C1 at the concrete scenario: values 5, 7, 3 pushed onto a
fresh stack of size hint 4 pop back as 3, 7, 5. -/
theorem claim_C1_witness :
    wf (mkOperandStack 4 0)
    ∧ (popN (pushAll (mkOperandStack 4 0) emptyBuilder [5, 7, 3]).1
          (pushAll (mkOperandStack 4 0) emptyBuilder [5, 7, 3]).2
          (List.length [5, 7, 3])).map (fun r => (r.1, r.2.1.stackTop))
        = some (List.reverse [5, 7, 3], (mkOperandStack 4 0).stackTop) :=
  ⟨by decide, (claim_C1 (mkOperandStack 4 0) emptyBuilder [5, 7, 3] (by decide)).1⟩

/-- Claim C3: `Pop` is fatal (`none`) exactly when the logical top is 0,
and never fails when the logical top is positive; in the concrete
scenario, after pushing three values and popping three times the depth
is 0 and a fourth pop is fatal. -/
theorem claim_C3 :
    (∀ (s : VirtualMachineOperandStack) (b : BuilderState),
        Pop s b = none ↔ s.stackTop = 0)
    ∧ ((popN exS exB 3).map (fun r => (r.2.1.stackTop, Pop r.2.1 r.2.2))
        = some (0, none)) :=
  ⟨Pop_eq_none_iff, by decide⟩

/-- Witness for C3: the fatal-iff-empty law instantiated at the scenario
stack of depth 3 (not fatal) together with the concrete fourth-pop
computation. -/
theorem claim_C3_witness :
    (Pop exS exB = none ↔ exS.stackTop = 0)
    ∧ ((popN exS exB 3).map (fun r => (r.2.1.stackTop, Pop r.2.1 r.2.2))
        = some (0, none)) :=
  ⟨claim_C3.1 exS exB, claim_C3.2⟩

/-- Claim C7: `Pick d` on any stack with `d` below the logical top
returns the value at index `top - 1 - d` without mutating anything,
`Top` is `Pick 0`, and after pushing v1..vn onto a well-formed stack,
`Pick d` returns v(n-d) for every `d < n`. -/
theorem claim_C7 (s : VirtualMachineOperandStack) (b : BuilderState)
    (vs : List IlValue) (h : wf s) :
    (∀ (t : VirtualMachineOperandStack) (d : Nat), d < t.stackTop →
        Pick t d = some (slotAt t (t.stackTop - 1 - d)))
    ∧ (∀ t : VirtualMachineOperandStack, Top t = Pick t 0)
    ∧ (∀ d, d < vs.length →
        Pick (pushAll s b vs).1 d = some (vs.getD (vs.length - 1 - d) 0)) := by
  obtain ⟨hwf, htop, hpres, hnew, hmax⟩ := pushAll_spec vs s b h
  refine ⟨?_, fun t => rfl, ?_⟩
  · intro t d hd
    unfold Pick
    rw [if_pos hd]
  · intro d hd
    unfold Pick
    rw [if_pos (by omega)]
    have hidx : (pushAll s b vs).1.stackTop - 1 - d = s.stackTop + (vs.length - 1 - d) := by
      omega
    rw [hidx, hnew (vs.length - 1 - d) (by omega)]

/-- Witness for C7 at the concrete scenario: Pick 0 = 3, Pick 1 = 7,
Pick 2 = 5 after pushing 5, 7, 3, and Top agrees with Pick 0. -/
theorem claim_C7_witness :
    wf (mkOperandStack 4 0)
    ∧ Pick (pushAll (mkOperandStack 4 0) emptyBuilder [5, 7, 3]).1 0 = some 3
    ∧ Pick (pushAll (mkOperandStack 4 0) emptyBuilder [5, 7, 3]).1 1 = some 7
    ∧ Pick (pushAll (mkOperandStack 4 0) emptyBuilder [5, 7, 3]).1 2 = some 5
    ∧ Top exS = Pick exS 0 :=
  ⟨by decide,
   (claim_C7 (mkOperandStack 4 0) emptyBuilder [5, 7, 3] (by decide)).2.2 0 (by decide),
   (claim_C7 (mkOperandStack 4 0) emptyBuilder [5, 7, 3] (by decide)).2.2 1 (by decide),
   (claim_C7 (mkOperandStack 4 0) emptyBuilder [5, 7, 3] (by decide)).2.2 2 (by decide),
   (claim_C7 (mkOperandStack 4 0) emptyBuilder [5, 7, 3] (by decide)).2.1 exS⟩

/-- Claim C10: the base class configuration hooks are constant: on every
stack state `growsUp` returns `true` and `stackPtrStartingOffset`
returns `-1`. -/
theorem claim_C10 (s : VirtualMachineOperandStack) :
    growsUp s = true ∧ stackPtrStartingOffset s = -1 :=
  ⟨rfl, rfl⟩

/-- Witness for C10 at a concrete stack. -/
theorem claim_C10_witness :
    growsUp (mkOperandStack 1 0) = true ∧ stackPtrStartingOffset (mkOperandStack 1 0) = -1 :=
  claim_C10 (mkOperandStack 1 0)

/-- Claim C2: merging a stack into another stack of identical logical
top emits, for every index below the top, a store of this stack's value
at that index over the other stack's storage location for that index
(appending exactly `top` stores, in index order, after the builder's
existing operations); merging stacks of differing logical depths is
fatal. -/
theorem claim_C2 (s other : VirtualMachineOperandStack) (b : BuilderState)
    (h : s.stackTop = other.stackTop) :
    (MergeInto s other b = some { b with ops := b.ops ++ mergeStores s other })
    ∧ (∀ bm, MergeInto s other b = some bm →
        bm.stackTopReg = b.stackTopReg
        ∧ bm.ops.length = b.ops.length + s.stackTop
        ∧ bm.ops.take b.ops.length = b.ops
        ∧ (∀ i, i < s.stackTop →
            bm.ops.getD (b.ops.length + i) (IROp.writeStackTopReg 0)
              = IROp.storeOver (slotAt other i) (slotAt s i)))
    ∧ (∀ (t u : VirtualMachineOperandStack) (bb : BuilderState),
        t.stackTop ≠ u.stackTop → MergeInto t u bb = none) := by
  have heq : MergeInto s other b = some { b with ops := b.ops ++ mergeStores s other } := by
    simp only [MergeInto]
    rw [if_pos h]
  refine ⟨heq, ?_, ?_⟩
  · intro bm hbm
    rw [heq] at hbm
    injection hbm with hbm
    rw [← hbm]
    refine ⟨rfl, by simp [mergeStores], ?_, ?_⟩
    · show (b.ops ++ mergeStores s other).take b.ops.length = b.ops
      exact List.take_left b.ops _
    · intro i hi
      show (b.ops ++ mergeStores s other).getD _ _ = _
      simp only [mergeStores]
      exact getD_append_map_range _ hi _
  · intro t u bb hne
    simp only [MergeInto]
    rw [if_neg hne]

/-- Witness for C2: the scenario stack holding 5, 7, 3 merged into the
resident stack holding 8, 9, 10 (equal depth 3) emits exactly the three
reconciliation stores. -/
theorem claim_C2_witness :
    exS.stackTop = exOther.stackTop
    ∧ (MergeInto exS exOther emptyBuilder
        = some { emptyBuilder with ops := emptyBuilder.ops ++ mergeStores exS exOther }) :=
  ⟨by decide, (claim_C2 exS exOther emptyBuilder (by decide)).1⟩

/-- Claim C4: `grow` sets the capacity to the larger of double the old
capacity and old capacity plus the requested amount, preserving every
live element and the logical top; a `Push` finding the logical top equal
to the capacity grows to at least double the capacity before inserting;
and the concrete scenario of size hint 2 with 10 pushed values pops all
10 values in LIFO order. -/
theorem claim_C4 (s : VirtualMachineOperandStack) (b : BuilderState) (v : IlValue)
    (h : wf s) :
    (∀ (t : VirtualMachineOperandStack) (g : Nat),
        (grow t g).stackMax = max (2 * t.stackMax) (t.stackMax + g)
        ∧ (grow t g).stackTop = t.stackTop
        ∧ (wf t → ∀ i, i < t.stackTop → slotAt (grow t g) i = slotAt t i))
    ∧ (s.stackTop = s.stackMax →
        2 * s.stackMax ≤ (Push s b v).1.stackMax
        ∧ (Push s b v).1.stackTop = s.stackTop + 1
        ∧ slotAt (Push s b v).1 s.stackTop = v
        ∧ (∀ i, i < s.stackTop → slotAt (Push s b v).1 i = slotAt s i))
    ∧ ((popN (pushAll (mkOperandStack 2 0) emptyBuilder
            [1, 2, 3, 4, 5, 6, 7, 8, 9, 10]).1
          (pushAll (mkOperandStack 2 0) emptyBuilder
            [1, 2, 3, 4, 5, 6, 7, 8, 9, 10]).2 10).map (fun r => r.1)
        = some [10, 9, 8, 7, 6, 5, 4, 3, 2, 1]) := by
  refine ⟨?_, ?_, by decide⟩
  · intro t g
    exact ⟨grow_stackMax t g, grow_stackTop t g, fun hw i hi => slotAt_grow t g hw hi⟩
  · intro heq
    refine ⟨?_, Push_stackTop s b v, slotAt_Push_top s b v h, ?_⟩
    · rw [Push_stackMax]
      unfold checkSize
      rw [if_pos heq, grow_stackMax]
      exact Nat.le_max_left _ _
    · intro i hi
      exact slotAt_Push_lt s b v h hi

/-- Witness for C4: growing a capacity-4 stack by 0 doubles it to 8, and
pushing an 11th value onto the scenario's grown stack keeps the
previously pushed values intact. -/
theorem claim_C4_witness :
    wf exS
    ∧ (grow exS 0).stackMax = max (2 * exS.stackMax) (exS.stackMax + 0)
    ∧ (grow exS 0).stackTop = exS.stackTop
    ∧ ((popN (pushAll (mkOperandStack 2 0) emptyBuilder
            [1, 2, 3, 4, 5, 6, 7, 8, 9, 10]).1
          (pushAll (mkOperandStack 2 0) emptyBuilder
            [1, 2, 3, 4, 5, 6, 7, 8, 9, 10]).2 10).map (fun r => r.1)
        = some [10, 9, 8, 7, 6, 5, 4, 3, 2, 1]) :=
  ⟨by decide,
   ((claim_C4 exS emptyBuilder 0 (by decide)).1 exS 0).1,
   ((claim_C4 exS emptyBuilder 0 (by decide)).1 exS 0).2.1,
   (claim_C4 exS emptyBuilder 0 (by decide)).2.2⟩

/-- Claim C5: `MakeCopy` produces a stack with the same capacity,
logical top, and element type whose live elements are the same value
handles; in this pure embedding the copy's backing sequence is a fresh
list whose value equals the original's, and the value semantics of the
embedding make mutation of the copy incapable of affecting the
original, whose observable state is preserved below the copy's write
index when the copy is pushed onto. -/
theorem claim_C5 (s : VirtualMachineOperandStack) (h : wf s) :
    (MakeCopy s).stackMax = s.stackMax
    ∧ (MakeCopy s).stackTop = s.stackTop
    ∧ (MakeCopy s).elementType = s.elementType
    ∧ (∀ i, i < s.stackTop → slotAt (MakeCopy s) i = slotAt s i)
    ∧ MakeCopy s = s
    ∧ (∀ (b : BuilderState) (v : IlValue),
        (Push (MakeCopy s) b v).1.stackTop = s.stackTop + 1
        ∧ slotAt (Push (MakeCopy s) b v).1 s.stackTop = v
        ∧ (∀ i, i < s.stackTop → slotAt (Push (MakeCopy s) b v).1 i = slotAt s i)) := by
  have hcopy := MakeCopy_eq s h
  refine ⟨rfl, rfl, rfl, fun i _ => by rw [hcopy], hcopy, ?_⟩
  intro b v
  rw [hcopy]
  exact ⟨Push_stackTop s b v, slotAt_Push_top s b v h,
    fun i hi => slotAt_Push_lt s b v h hi⟩

/-- Witness for C5 at the scenario stack: the copy agrees with the
original and pushing 42 onto the copy yields depth 4 with 42 on top. -/
theorem claim_C5_witness :
    wf exS
    ∧ (MakeCopy exS).stackMax = exS.stackMax
    ∧ (MakeCopy exS).stackTop = exS.stackTop
    ∧ (MakeCopy exS).elementType = exS.elementType
    ∧ MakeCopy exS = exS
    ∧ (Push (MakeCopy exS) emptyBuilder 42).1.stackTop = exS.stackTop + 1
    ∧ slotAt (Push (MakeCopy exS) emptyBuilder 42).1 exS.stackTop = 42 :=
  ⟨by decide,
   (claim_C5 exS (by decide)).1,
   (claim_C5 exS (by decide)).2.1,
   (claim_C5 exS (by decide)).2.2.1,
   (claim_C5 exS (by decide)).2.2.2.2.1,
   ((claim_C5 exS (by decide)).2.2.2.2.2 emptyBuilder 42).1,
   ((claim_C5 exS (by decide)).2.2.2.2.2 emptyBuilder 42).2.1⟩

/-- Claim C6: `Commit` leaves the simulated stack (logical top and
elements) unchanged and does not move the stack-top register; it appends
to the builder exactly one store per live slot, in ascending index order
from slot 0 (the bottom), each storing that slot's value to the real-VM
address computed from the register's current value, the growth
direction, and the starting offset. -/
theorem claim_C6 (s : VirtualMachineOperandStack) (b : BuilderState) :
    (Commit s b).1 = s
    ∧ (Commit s b).2.stackTopReg = b.stackTopReg
    ∧ (Commit s b).2.ops.length = b.ops.length + s.stackTop
    ∧ (Commit s b).2.ops.take b.ops.length = b.ops
    ∧ (∀ i, i < s.stackTop →
        (Commit s b).2.ops.getD (b.ops.length + i) (IROp.writeStackTopReg 0)
          = IROp.storeToVMStack (commitAddress s b.stackTopReg i) (slotAt s i)) := by
  refine ⟨rfl, rfl, ?_, ?_, ?_⟩
  · show (b.ops ++ commitStores s b.stackTopReg).length = b.ops.length + s.stackTop
    simp [commitStores]
  · show (b.ops ++ commitStores s b.stackTopReg).take b.ops.length = b.ops
    exact List.take_left b.ops _
  · intro i hi
    show (b.ops ++ commitStores s b.stackTopReg).getD _ _ = _
    simp only [commitStores]
    exact getD_append_map_range _ hi _

/-- Witness for C6 at the scenario stack: the commit emits three stores
and the first targets address -2 with value 5 (register 0, growth up,
offset -1, depth 3). -/
theorem claim_C6_witness :
    (Commit exS emptyBuilder).1 = exS
    ∧ (Commit exS emptyBuilder).2.stackTopReg = emptyBuilder.stackTopReg
    ∧ (Commit exS emptyBuilder).2.ops.length = emptyBuilder.ops.length + exS.stackTop
    ∧ (Commit exS emptyBuilder).2.ops.getD (emptyBuilder.ops.length + 0)
        (IROp.writeStackTopReg 0)
      = IROp.storeToVMStack (commitAddress exS emptyBuilder.stackTopReg 0) (slotAt exS 0) :=
  ⟨(claim_C6 exS emptyBuilder).1,
   (claim_C6 exS emptyBuilder).2.1,
   (claim_C6 exS emptyBuilder).2.2.1,
   (claim_C6 exS emptyBuilder).2.2.2.2 0 (by decide)⟩

/-- Claim C8: a `Drop` of `d` elements within the depth decrements the
logical top by `d` and emits exactly one aggregate stack-top-register
write for the whole change; dropping `k` and then `j` elements (with
`k + j` within the original depth) succeeds and leaves the stack in the
same state, with the same final register value, as a single drop of
`k + j` elements. -/
theorem claim_C8 (s : VirtualMachineOperandStack) (b : BuilderState) (k j : Nat)
    (h : k + j ≤ s.stackTop) :
    (∀ (t : VirtualMachineOperandStack) (bb : BuilderState) (d : Nat), d ≤ t.stackTop →
        Drop t bb d = some ({ t with stackTop := t.stackTop - d },
          adjustReg t bb (-(d : Int)))
        ∧ (adjustReg t bb (-(d : Int))).ops
            = bb.ops ++ [IROp.writeStackTopReg (bb.stackTopReg + t.pushAmount * (-(d : Int)))])
    ∧ ((Drop s b k).bind (fun r => Drop r.1 r.2 j)).map (fun r => (r.1, r.2.stackTopReg))
        = (Drop s b (k + j)).map (fun r => (r.1, r.2.stackTopReg))
    ∧ (Drop s b (k + j)).isSome = true := by
  have hk : k ≤ s.stackTop := by omega
  refine ⟨fun t bb d hd => ⟨Drop_of_le t bb d hd, rfl⟩, ?_, ?_⟩
  · rw [Drop_of_le s b k hk]
    simp only [Option.some_bind]
    have hj : j ≤ s.stackTop - k := by omega
    rw [Drop_of_le _ _ j hj, Drop_of_le s b (k + j) h]
    simp only [Option.map_some']
    have h1 : s.stackTop - k - j = s.stackTop - (k + j) := Nat.sub_sub _ _ _
    have h2 : b.stackTopReg + s.pushAmount * (-(k : Int)) + s.pushAmount * (-(j : Int))
        = b.stackTopReg + s.pushAmount * (-((k + j : Nat) : Int)) := by
      push_cast
      ring
    show some (VirtualMachineOperandStack.mk s.stackMax (s.stackTop - k - j) s.stack
        s.elementType s.pushAmount s.stackOffset,
        b.stackTopReg + s.pushAmount * (-(k : Int)) + s.pushAmount * (-(j : Int)))
      = some (VirtualMachineOperandStack.mk s.stackMax (s.stackTop - (k + j)) s.stack
        s.elementType s.pushAmount s.stackOffset,
        b.stackTopReg + s.pushAmount * (-((k + j : Nat) : Int)))
    rw [h1, h2]
  · rw [Drop_of_le s b (k + j) h]
    rfl

/-- Witness for C8 at the scenario stack of depth 3: dropping 1 then 1
agrees with dropping 2 at once. -/
theorem claim_C8_witness :
    1 + 1 ≤ exS.stackTop
    ∧ ((Drop exS exB 1).bind (fun r => Drop r.1 r.2 1)).map (fun r => (r.1, r.2.stackTopReg))
        = (Drop exS exB (1 + 1)).map (fun r => (r.1, r.2.stackTopReg))
    ∧ (Drop exS exB (1 + 1)).isSome = true :=
  ⟨by decide, (claim_C8 exS exB 1 1 (by decide)).2.1, (claim_C8 exS exB 1 1 (by decide)).2.2⟩

/-- Claim C9: a fresh stack has logical top 0 and capacity at least
max(sizeHint, 1); every operation that yields a stack preserves the
invariant (backing length = capacity, top at most capacity, capacity
positive) and never decreases the capacity. `Pick`, `Top` and
`MergeInto` return no stack: they leave the stack argument untouched by
construction. -/
theorem claim_C9 (s : VirtualMachineOperandStack) (b : BuilderState) (v : IlValue)
    (h : wf s) :
    (∀ (n t : Nat), (mkOperandStack n t).stackTop = 0
        ∧ max n 1 ≤ (mkOperandStack n t).stackMax
        ∧ wf (mkOperandStack n t))
    ∧ (wf (Push s b v).1 ∧ s.stackMax ≤ (Push s b v).1.stackMax)
    ∧ (∀ r, Pop s b = some r → wf r.2.1 ∧ s.stackMax ≤ r.2.1.stackMax)
    ∧ (∀ (d : Nat) (r : VirtualMachineOperandStack × BuilderState),
        Drop s b d = some r → wf r.1 ∧ s.stackMax ≤ r.1.stackMax)
    ∧ (∀ r : VirtualMachineOperandStack × BuilderState,
        Dup s b = some r → wf r.1 ∧ s.stackMax ≤ r.1.stackMax)
    ∧ (wf (MakeCopy s) ∧ (MakeCopy s).stackMax = s.stackMax)
    ∧ (wf (Commit s b).1 ∧ (Commit s b).1.stackMax = s.stackMax)
    ∧ (∀ g : Nat, wf (grow s g) ∧ s.stackMax ≤ (grow s g).stackMax)
    ∧ (wf (checkSize s) ∧ s.stackMax ≤ (checkSize s).stackMax) := by
  obtain ⟨hlen, htop, hpos⟩ := h
  have h' : wf s := ⟨hlen, htop, hpos⟩
  refine ⟨?_, ⟨wf_Push s b v h', stackMax_le_Push s b v⟩, ?_, ?_, ?_,
    ⟨wf_MakeCopy s h', rfl⟩, ⟨h', rfl⟩,
    fun g => ⟨wf_grow s g h', stackMax_le_grow s g⟩,
    ⟨wf_checkSize s h', stackMax_le_checkSize s⟩⟩
  · intro n t
    exact ⟨rfl, Nat.le_refl _,
      ⟨by simp [mkOperandStack], Nat.zero_le _,
       Nat.lt_of_lt_of_le Nat.one_pos (Nat.le_max_right n 1)⟩⟩
  · intro r hr
    obtain ⟨hp, hr1⟩ := Pop_some_inv s b r hr
    rw [hr1]
    exact ⟨⟨hlen, by simp; omega, hpos⟩, Nat.le_refl _⟩
  · intro d r hr
    obtain ⟨hd, hr1⟩ := Drop_some_inv s b d r hr
    rw [hr1]
    exact ⟨⟨hlen, by simp; omega, hpos⟩, Nat.le_refl _⟩
  · intro r hr
    obtain ⟨v', hv⟩ := Dup_some_inv s b r hr
    rw [hv]
    exact ⟨wf_Push s b v' h', stackMax_le_Push s b v'⟩

/-- Witness for C9 at the scenario stack: the invariant holds for the
constructor, for a push, for the copy, and for `checkSize`. -/
theorem claim_C9_witness :
    wf exS
    ∧ (mkOperandStack 4 0).stackTop = 0
    ∧ wf (Push exS exB 42).1
    ∧ wf (MakeCopy exS)
    ∧ wf (checkSize exS) :=
  ⟨by decide,
   ((claim_C9 exS exB 42 (by decide)).1 4 0).1,
   (claim_C9 exS exB 42 (by decide)).2.1.1,
   (claim_C9 exS exB 42 (by decide)).2.2.2.2.2.1.1,
   (claim_C9 exS exB 42 (by decide)).2.2.2.2.2.2.2.2.1⟩

end OMR
